import Mathlib

/-!
Verification of the Aether request-matching and moderation pipeline
(`src/App.jsx`) against its specification.

The development shallowly embeds the pipeline's logic:

* the ContentGuard checks inlined in `handleSend` (privacy regex, crisis
  keyword scan) and in the chat room's `send` (toxicity keyword scan),
* the `requests` ledger and `acceptRequest`'s delete-then-insert
  transition, with the `await` boundaries made explicit as store
  operations so interleavings of concurrent acceptances can be examined,
* the room message log and its `watch` (an `orderBy timestamp`
  subscription),
* the local suspension gate in `AppContent`, and
* the `fetchGemini` call with its abort timer.

JavaScript strings are embedded as `String`/`List Char`; the regular
expression used by the privacy filter is embedded as a nondeterministic
matcher returning every possible remainder, so that `RegExp.test`
(existence of a match anywhere) becomes emptiness of a computed list.
Machine integers (`Date.now()` values, durations) are embedded as `Nat`
or `Int`; all values involved are far below 2^53, where JavaScript
numbers are exact.
-/

namespace Aether

/-! ### Character classes of the JavaScript regex dialect (ASCII range) -/

/-- Class `\d` of the regex: ASCII digits. -/
def isDigitJS (c : Char) : Bool := c.isDigit

/-- Class `\w` of the regex: ASCII letters, digits and underscore. -/
def isWordJS (c : Char) : Bool := c.isAlphanum || c == '_'

/-- Class `\s` of the regex (ASCII part: space, tab, LF, VT, FF, CR).
The source text only ever meets the ASCII subset. -/
def isSpaceJS (c : Char) : Bool :=
  c == ' ' || c == '\t' || c == '\n' || c == '\r' || c == '\x0B' || c == '\x0C'

/-- Class `[-.\s]` used between phone-number groups. -/
def isPhoneSep (c : Char) : Bool := c == '-' || c == '.' || isSpaceJS c

/-- Class `[\w.%+-]` of the e-mail local part. -/
def isEmailLocal (c : Char) : Bool :=
  isWordJS c || c == '.' || c == '%' || c == '+' || c == '-'

/-- Class `[\w.-]` of the e-mail domain part. -/
def isEmailDomain (c : Char) : Bool := isWordJS c || c == '.' || c == '-'

/-- Class `[a-zA-Z]` of the top-level-domain part. -/
def isAsciiAlpha (c : Char) : Bool := c.isAlpha

/-! ### A nondeterministic matcher for the privacy regular expression

A matcher maps an input (list of characters) to the list of all suffixes
that can remain after consuming a match of the piece; `RegExp.test`
succeeds exactly when some starting position admits some way to match,
i.e. when the computed list at some suffix is nonempty. -/

/-- A regex piece: input ↦ all possible remainders. -/
abbrev Matcher := List Char → List (List Char)

/-- Match one character satisfying `p`. -/
def mOne (p : Char → Bool) : Matcher
  | [] => []
  | c :: rest => if p c then [rest] else []

/-- Match `a` then `b`. -/
def mSeq (a b : Matcher) : Matcher := fun s => (a s).flatMap b

/-- Match `a` or `b` (alternation). -/
def mAlt (a b : Matcher) : Matcher := fun s => a s ++ b s

/-- Match `a` or nothing (the regex `?`). -/
def mOpt (a : Matcher) : Matcher := fun s => s :: a s

/-- Match one or more characters of class `p` (the regex `+` on a class). -/
def mPlus (p : Char → Bool) : Matcher
  | [] => []
  | c :: rest => if p c then rest :: mPlus p rest else []

/-- Match a literal character sequence, case-insensitively (the `i` flag). -/
def mLit : List Char → Matcher
  | [], s => [s]
  | _ :: _, [] => []
  | c :: cs, d :: rest => if d.toLower == c.toLower then mLit cs rest else []

/-- The optional country-code group `(?:\+?\d{1,3}[-.\s]?)?` (inner part). -/
def mCountryCode : Matcher :=
  mSeq (mOpt (mOne (fun c => c == '+')))
    (mSeq (mOne isDigitJS)
      (mSeq (mOpt (mSeq (mOne isDigitJS) (mOpt (mOne isDigitJS))))
        (mOpt (mOne isPhoneSep))))

/-- Two digits in a row (`\d{2}`). -/
def mD2 : Matcher := mSeq (mOne isDigitJS) (mOne isDigitJS)

/-- Three digits in a row (`\d{3}`). -/
def mD3 : Matcher := mSeq (mOne isDigitJS) mD2

/-- Four digits in a row (`\d{4}`). -/
def mD4 : Matcher := mSeq mD2 mD2

/-- The phone alternative
`(?:\+?\d{1,3}[-.\s]?)?\(?\d{3}\)?[-.\s]?\d{3}[-.\s]?\d{4}`. -/
def mPhone : Matcher :=
  mSeq (mOpt mCountryCode)
    (mSeq (mOpt (mOne (fun c => c == '(')))
      (mSeq mD3
        (mSeq (mOpt (mOne (fun c => c == ')')))
          (mSeq (mOpt (mOne isPhoneSep))
            (mSeq mD3
              (mSeq (mOpt (mOne isPhoneSep)) mD4))))))

/-- The e-mail alternative `[\w.%+-]+@[\w.-]+\.[a-zA-Z]{2,}`. -/
def mEmail : Matcher :=
  mSeq (mPlus isEmailLocal)
    (mSeq (mOne (fun c => c == '@'))
      (mSeq (mPlus isEmailDomain)
        (mSeq (mOne (fun c => c == '.'))
          (mSeq (mOne isAsciiAlpha) (mPlus isAsciiAlpha)))))

/-- The messenger-link alternative `(wa\.me|instagram\.|t\.me|facebook\.)`. -/
def mLinks : Matcher :=
  mAlt (mLit "wa.me".data)
    (mAlt (mLit "instagram.".data)
      (mAlt (mLit "t.me".data) (mLit "facebook.".data)))

/-- The whole privacy pattern of `handleSend` (three top-level alternatives). -/
def mPrivacy : Matcher := mAlt mPhone (mAlt mEmail mLinks)

/-- Unanchored matching: does `m` match starting at some position of `s`?
This is `RegExp.prototype.test`. -/
def testAnywhere (m : Matcher) : List Char → Bool
  | [] => !(m []).isEmpty
  | c :: rest => !(m (c :: rest)).isEmpty || testAnywhere m rest

/-- `privacyPattern.test(input)` of `handleSend` (`App.jsx` line 314). -/
def privacyPatternTest (input : String) : Bool := testAnywhere mPrivacy input.data

/-! ### Keyword scans (crisis and toxicity policies) -/

/-- Is `kw` a prefix of `s`? (`String.prototype.startsWith`, exact chars). -/
def isPrefixList : List Char → List Char → Bool
  | [], _ => true
  | _ :: _, [] => false
  | a :: as, b :: bs => a == b && isPrefixList as bs

/-- Is `kw` a contiguous substring of `s`? (`String.prototype.includes`). -/
def isSubstr (kw : List Char) : List Char → Bool
  | [] => isPrefixList kw []
  | c :: rest => isPrefixList kw (c :: rest) || isSubstr kw rest

/-- `s.toLowerCase()` (ASCII case mapping, which is all the source needs). -/
def lowerData (s : String) : List Char := s.data.map Char.toLower

/-- The fixed crisis vocabulary of `handleSend` (`App.jsx` line 322). -/
def riskKeywords : List String :=
  ["suicide", "kill myself", "end it all", "hurt myself", "die", "self-harm"]

/-- `riskKeywords.some(kw => input.toLowerCase().includes(kw))`. -/
def riskTest (input : String) : Bool :=
  riskKeywords.any (fun kw => isSubstr kw.data (lowerData input))

/-- The fixed toxicity vocabulary of the chat room's `send`
(`App.jsx` line 531). -/
def toxicityKeywords : List String :=
  ["shut up", "idiot", "stupid", "hate", "die", "ugly", "useless", "harass", "kill"]

/-- `toxicityKeywords.some(kw => input.toLowerCase().includes(kw))`. -/
def toxicTest (input : String) : Bool :=
  toxicityKeywords.any (fun kw => isSubstr kw.data (lowerData input))

/-- Truthiness of `input.trim()`: some character is not whitespace.
Each guarded handler starts with `if (!input.trim()) return`. -/
def jsTruthyTrim (input : String) : Bool :=
  input.data.any (fun c => !(isSpaceJS c))

/-! ### The `handleSend` verdict (ContentGuard `evaluate` for speak texts) -/

/-- Outcome of the guard chain at the top of `handleSend`. -/
inductive Verdict where
  | emptyInput
  | blockPrivacy
  | blockCrisis
  | allow
deriving DecidableEq, Repr

/-- The classifier inlined at the top of `handleSend`
(`App.jsx` lines 310-327), in source order: empty guard, then the
privacy pattern, then the crisis keyword scan. -/
def handleSendVerdict (input : String) : Verdict :=
  if !(jsTruthyTrim input) then .emptyInput
  else if privacyPatternTest input then .blockPrivacy
  else if riskTest input then .blockCrisis
  else .allow

/-! ### Users and display names -/

/-- An authenticated identity as the handlers see it: `uid` plus
`displayName` (which may be null). -/
structure AuthUser where
  uid : String
  displayName : Option String
deriving DecidableEq, Repr

/-- `user.displayName || dflt` — JavaScript falls back on both null and
the empty string. -/
def displayNameOr (dn : Option String) (dflt : String) : String :=
  match dn with
  | some n => if n.isEmpty then dflt else n
  | none => dflt

/-! ### The requests ledger and room logs (the Firestore collections) -/

/-- The field set of a document of the `requests` collection.  Documents
written by `handleSend` carry no `id`, `roomId` or `listenerId` field
(`none` here); `acceptRequest` writes all of them. -/
structure RequestDoc where
  origId : Option String
  speakerId : String
  speakerName : String
  summary : String
  status : String
  roomId : Option String
  listenerId : Option String
  timestamp : Nat
deriving DecidableEq, Repr

/-- A document of a room's `messages` sub-collection. -/
structure ChatMessage where
  senderId : String
  senderName : String
  content : String
  timestamp : Nat
deriving DecidableEq, Repr

/-- The shared document store as the pipeline uses it: the `requests`
collection (document id × data) and the per-room message logs. -/
structure Store where
  requests : List (String × RequestDoc)
  rooms : List (String × List ChatMessage)
deriving DecidableEq, Repr

/-- One awaited Firestore write of the matching pipeline.  Each `await`
in the source is a suspension point, so concurrent handler invocations
interleave at the granularity of these operations. -/
inductive StoreOp where
  | addRoomMsg (roomId : String) (m : ChatMessage)
  | deleteRequest (docId : String)
  | addRequest (docId : String) (r : RequestDoc)
deriving DecidableEq, Repr

/-- `addDoc(collection(db, "rooms", roomId, "messages"), m)`: appends to
the room's log, creating the (implicit) sub-collection if absent. -/
def addRoomMsgFn (roomId : String) (m : ChatMessage)
    (rooms : List (String × List ChatMessage)) : List (String × List ChatMessage) :=
  if rooms.any (fun p => p.1 == roomId) then
    rooms.map (fun p => if p.1 == roomId then (p.1, p.2 ++ [m]) else p)
  else rooms ++ [(roomId, [m])]

/-- Effect of one store operation.  `deleteDoc` of an absent document is
a successful no-op, as in Firestore. -/
def applyOp (st : Store) : StoreOp → Store
  | .addRoomMsg rid m => { st with rooms := addRoomMsgFn rid m st.rooms }
  | .deleteRequest d => { st with requests := st.requests.filter (fun p => !(p.1 == d)) }
  | .addRequest d r => { st with requests := st.requests ++ [(d, r)] }

/-! ### The speak flow: `handleSend` of `SpeakerAI` -/

/-- One bubble of the client-side AI conversation. -/
structure ChatTurn where
  role : String
  content : String
deriving DecidableEq, Repr

/-- Local state of the `SpeakerAI` view together with the `requests`
collection it writes to. -/
structure SpeakState where
  input : String
  messages : List ChatTurn
  warning : String
  emergencyModal : Bool
  matching : Bool
  requests : List (String × RequestDoc)
deriving DecidableEq, Repr

/-- The privacy-shield banner text set by `handleSend`. -/
def privacyWarningText : String :=
  "Privacy Shield: Sharing contacts or external links is forbidden for your safety."

/-- The canned acknowledgment used when the external rewrite is
unavailable (`App.jsx` line 335). -/
def cannedAck : String :=
  "تم تشفير كلماتك.. أنا ببحث لك دلوقتي عن شخص حقيقي يقدر يسمعك ويفهمك بجد."

/-- `let aiResponse = canned; if (realAI) aiResponse = realAI` — the
fetched text replaces the canned one only when truthy (non-null,
nonempty). -/
def aiResponseOf (fetched : Option String) : String :=
  match fetched with
  | some t => if t.isEmpty then cannedAck else t
  | none => cannedAck

/-- The pending request document written by `handleSend`
(`App.jsx` lines 353-359). -/
def mkPendingDoc (user : AuthUser) (aiResponse : String) (serverTs : Nat) : RequestDoc :=
  { origId := none
    speakerId := user.uid
    speakerName := displayNameOr user.displayName "Anonymous"
    summary := aiResponse
    status := "pending"
    roomId := none
    listenerId := none
    timestamp := serverTs }

/-- Result of one `handleSend` invocation: the final state, plus the
delay of the timer scheduled to clear the warning banner (if one was
scheduled). -/
structure HandleSendResult where
  state : SpeakState
  warningClearDelayMs : Option Nat
deriving Repr

/-- `handleSend` of `SpeakerAI` (`App.jsx` lines 310-364), the whole
invocation collapsed to its final state: guard chain (empty input,
privacy pattern, crisis keywords), then conversation update, then the
pending-request write — which happens only when a user is signed in —
and entry into the matching state. -/
def handleSend (user : Option AuthUser) (fetched : Option String)
    (serverTs : Nat) (newDocId : String) (st : SpeakState) : HandleSendResult :=
  if !(jsTruthyTrim st.input) then ⟨st, none⟩
  else if privacyPatternTest st.input then
    ⟨{ st with warning := privacyWarningText }, some 5000⟩
  else if riskTest st.input then
    ⟨{ st with emergencyModal := true }, none⟩
  else
    let resp := aiResponseOf fetched
    let msgs := st.messages ++ [⟨"user", st.input⟩, ⟨"assistant", resp⟩]
    let reqs :=
      match user with
      | some u => st.requests ++ [(newDocId, mkPendingDoc u resp serverTs)]
      | none => st.requests
    ⟨{ st with input := "", messages := msgs, requests := reqs, matching := true }, none⟩

/-! ### The chat room: `send` of `ChatRoom` -/

/-- The 24-hour suspension imposed on a toxic sender, in milliseconds
(`Date.now() + 86400000`). -/
def banDurationMs : Nat := 86400000

/-- Client-local state touched by the chat room's `send`: the input box,
the persisted `ban_expiry` key, and whether the page was forced to
reload (which re-runs the suspension gate). -/
structure ChatClientState where
  input : String
  banExpiry : Option Nat
  reloaded : Bool
deriving DecidableEq, Repr

/-- `send` of `ChatRoom` (`App.jsx` lines 529-544): guard, toxicity scan
(match ⇒ store `Date.now() + 86400000` under `ban_expiry`, reload, and
drop the message), otherwise append the message to the room log with the
server-assigned timestamp. -/
def sendChat (user : Option AuthUser) (roomId : Option String)
    (now serverTs : Nat) (st : ChatClientState) (log : List ChatMessage) :
    ChatClientState × List ChatMessage :=
  match user, roomId with
  | some u, some _ =>
    if !(jsTruthyTrim st.input) then (st, log)
    else if toxicTest st.input then
      ({ st with banExpiry := some (now + banDurationMs), reloaded := true }, log)
    else
      ({ st with input := "" },
        log ++ [⟨u.uid, displayNameOr u.displayName "Me", st.input, serverTs⟩])
  | _, _ => (st, log)

/-- Pointwise timestamp order on messages (the `orderBy` key). -/
def tsLE (a b : ChatMessage) : Prop := a.timestamp ≤ b.timestamp

instance : DecidableRel tsLE := fun a b => Nat.decLe a.timestamp b.timestamp

instance : IsTotal ChatMessage tsLE := ⟨fun a b => Nat.le_total a.timestamp b.timestamp⟩

instance : IsTrans ChatMessage tsLE := ⟨fun _ _ _ h₁ h₂ => Nat.le_trans h₁ h₂⟩

/-- `watch(roomId)`: the live subscription queries the room's messages
with `orderBy("timestamp", "asc")`; each snapshot is the current log
ordered by timestamp (a stable sort, as Firestore's ordered query is). -/
def watchSnapshot (log : List ChatMessage) : List ChatMessage :=
  log.insertionSort tsLE

/-! ### The match coordinator: `acceptRequest` of `ListenerHub` -/

/-- Room identifier synthesized on acceptance:
``` `${req.speakerId}_${user.uid}_${Date.now()}` ```. -/
def mkRoomId (speakerId uid : String) (nowClient : Nat) : String :=
  speakerId ++ "_" ++ uid ++ "_" ++ toString nowClient

/-- The synthetic system message that opens each new room: its sender is
the pseudo-user `system`, not either participant. -/
def systemGreeting (serverTs : Nat) : ChatMessage :=
  ⟨"system", "Aether", "Connection Established. Speak freely.", serverTs⟩

/-- The accepted request document written by `acceptRequest`: the spread
of the pending snapshot (`...req`, whose client-side `id` field is the
original document id) overridden with `status`, `roomId`, `listenerId`
and a fresh server timestamp. -/
def acceptedDoc (req : RequestDoc) (reqDocId uid roomId : String)
    (serverTs : Nat) : RequestDoc :=
  { req with
    origId := some reqDocId
    status := "accepted"
    roomId := some roomId
    listenerId := some uid
    timestamp := serverTs }

/-- The three awaited store writes of one `acceptRequest` call
(`App.jsx` lines 844-868), in source order: create the room with its
system greeting, delete the pending document, insert the accepted
document. -/
def acceptOps (uid : String) (req : String × RequestDoc)
    (nowClient serverTs : Nat) (newDocId : String) : List StoreOp :=
  [ .addRoomMsg (mkRoomId req.2.speakerId uid nowClient) (systemGreeting serverTs),
    .deleteRequest req.1,
    .addRequest newDocId (acceptedDoc req.2 req.1 uid (mkRoomId req.2.speakerId uid nowClient) serverTs) ]

/-- One `acceptRequest` call run without interference (its three writes
applied in order); with no signed-in user the handler returns at once. -/
def acceptRequest (user : Option AuthUser) (req : String × RequestDoc)
    (nowClient serverTs : Nat) (newDocId : String) (st : Store) : Store :=
  match user with
  | none => st
  | some u => (acceptOps u.uid req nowClient serverTs newDocId).foldl applyOp st

/-! ### The suspension gate: `AppContent`'s load-time check -/

/-- What `AppContent` renders: the fixed suspension notice, or the
normal application surface (routes, navbar, footer). -/
inductive Surface where
  | suspendedNotice
  | normalApp
deriving DecidableEq, Repr

/-- Result of the `ban_expiry` check run on load (`App.jsx` lines
1428-1441): the `isBanned` flag, the countdown text, and what remains
stored afterwards. -/
structure BanGate where
  isBanned : Bool
  banTimeRemaining : String
  storedAfter : Option Int
deriving DecidableEq, Repr

/-- The load-time suspension check: a stored expiry still in the future
blocks and formats the remaining whole days and hours; otherwise the
stale key is removed.  Times are absolute milliseconds. -/
def checkBanOnLoad (stored : Option Int) (now : Int) : BanGate :=
  match stored with
  | none => ⟨false, "", none⟩
  | some expiry =>
    let remaining := expiry - now
    if 0 < remaining then
      ⟨true,
        toString (remaining / 86400000) ++ "d " ++ toString (remaining / 3600000 % 24) ++ "h",
        some expiry⟩
    else ⟨false, "", none⟩

/-- `AppContent` returns the suspension notice instead of the routed
application whenever the gate flagged the client as banned. -/
def renderApp (g : BanGate) : Surface :=
  if g.isBanned then .suspendedNotice else .normalApp

/-! ### The external rewrite call: `fetchGemini` -/

/-- The hard client-side timer armed before the fetch:
`setTimeout(() => controller.abort(), 5000)`. -/
def GEMINI_TIMEOUT_MS : Nat := 5000

/-- Behaviour of the network and service on one call, as observed by the
client: either the response headers arrive after `headerMs` and the body
finishes `bodyMs` later carrying `text` (the extracted candidate text,
absent when the payload has none), or the request fails outright after
`failMs`. -/
inductive FetchOutcome where
  | ok (headerMs bodyMs : Nat) (text : Option String)
  | netFail (failMs : Nat)
deriving DecidableEq, Repr

/-- What one `fetchGemini` call yields: the resolved value (never an
exception), the instant the awaited `fetch` itself settled (resolved,
rejected or aborted), and the instant the whole call returned. -/
structure FetchResult where
  result : Option String
  fetchSettledAtMs : Nat
  completedAtMs : Nat
deriving DecidableEq, Repr

/-- `data.candidates?.[0]?.content?.parts?.[0]?.text || null`: a missing
or empty extracted text collapses to null. -/
def extractText (t : Option String) : Option String :=
  match t with
  | some s => if s.isEmpty then none else some s
  | none => none

/-- `!GEMINI_API_KEY || GEMINI_API_KEY.length < 20` (negated): the key
must be present and at least 20 characters. -/
def geminiKeyOk (key : Option String) : Bool :=
  match key with
  | none => false
  | some k => !(k.length < 20)

/-- `fetchGemini` (`App.jsx` lines 85-110).  The abort timer fires at
5000 ms if the fetch has not settled by then, rejecting it (caught ⇒
null).  When the fetch settles earlier the timer is cleared
(`clearTimeout` runs before `response.json()`), so the body read that
follows is not under any timer. -/
def fetchGemini (key : Option String) (outcome : FetchOutcome) : FetchResult :=
  if !(geminiKeyOk key) then ⟨none, 0, 0⟩
  else
    match outcome with
    | .netFail t =>
      if t < GEMINI_TIMEOUT_MS then ⟨none, t, t⟩
      else ⟨none, GEMINI_TIMEOUT_MS, GEMINI_TIMEOUT_MS⟩
    | .ok h b txt =>
      if h < GEMINI_TIMEOUT_MS then ⟨extractText txt, h, h + b⟩
      else ⟨none, GEMINI_TIMEOUT_MS, GEMINI_TIMEOUT_MS⟩

/-! ### Shape of the records the system writes (for the ledger invariant) -/

/-- Field-shape invariant of a request record: pending records carry no
room, accepted records carry both a room and a listener. -/
def ReqShapeOk (r : RequestDoc) : Prop :=
  (r.status = "pending" → r.roomId = none) ∧
  (r.status = "accepted" → r.roomId ≠ none ∧ r.listenerId ≠ none)

/-- A request document the system can write: either the pending document
of `handleSend` or the accepted document of `acceptRequest` — these are
the only two writers of the `requests` collection in the source. -/
def SystemWrite (r : RequestDoc) : Prop :=
  (∃ u resp ts, r = mkPendingDoc u resp ts) ∨
  (∃ req d uid rid ts, r = acceptedDoc req d uid rid ts)

/-- Does a store operation respect the system's writers?  (Deletes and
room writes put no request record in the ledger.) -/
def opWritesOk : StoreOp → Prop
  | .addRequest _ r => SystemWrite r
  | _ => True

/-- An identifier free of the `_` separator (Firebase uids are
alphanumeric, so the ids glued into a room id satisfy this). -/
def noUnderscore (s : String) : Prop := '_' ∉ s.data

/-! ### A concrete double-acceptance interleaving

Listeners `L1` and `L2` both hold the same pending snapshot `r1`.
`L1` performs its first awaited write (room creation) and suspends; `L2`
runs its whole `acceptRequest`; `L1` resumes with its remaining two
writes.  Every operation succeeds (the second delete is a no-op). -/

/-- The single pending request both listeners try to accept. -/
def racePending : RequestDoc :=
  ⟨none, "s", "Soul", "a summary", "pending", none, none, 0⟩

/-- The ledger before the race: just the pending request, no rooms. -/
def raceStart : Store := ⟨[("r1", racePending)], []⟩

/-- The writes of L1's `acceptRequest` call. -/
def raceOpsL1 : List StoreOp := acceptOps "L1" ("r1", racePending) 100 150 "a1"

/-- The writes of L2's `acceptRequest` call. -/
def raceOpsL2 : List StoreOp := acceptOps "L2" ("r1", racePending) 200 250 "a2"

/-- The interleaved schedule: L1's room creation, then all of L2, then
the rest of L1. -/
def raceSchedule : List StoreOp := raceOpsL1.take 1 ++ raceOpsL2 ++ raceOpsL1.drop 1

/-- The store after the interleaved execution. -/
def raceFinal : Store := raceSchedule.foldl applyOp raceStart

/-! ### Posting a batch of allowed messages (for the round-trip property) -/

/-- One message a participant submits into a room: who, what, and the
server timestamp its write receives. -/
structure PostInput where
  user : AuthUser
  content : String
  ts : Nat
deriving DecidableEq, Repr

/-- The message document a post becomes. -/
def toMsg (p : PostInput) : ChatMessage :=
  ⟨p.user.uid, displayNameOr p.user.displayName "Me", p.content, p.ts⟩

/-- One `send` call for the post (the sender's client-local state is
fresh; `Date.now()` is irrelevant to an allowed send), projected to the
room log. -/
def postOnce (rid : String) (log : List ChatMessage) (p : PostInput) : List ChatMessage :=
  (sendChat (some p.user) (some rid) 0 p.ts ⟨p.content, none, false⟩ log).2

/-- Posting a batch of messages into the room, in order. -/
def runPosts (rid : String) (posts : List PostInput) (log : List ChatMessage) :
    List ChatMessage :=
  posts.foldl (postOnce rid) log

/-! ### Matcher well-formedness predicates

Used to show that a text consisting only of whitespace can never match
the privacy pattern (each alternative demands a digit, a word character
or a letter). -/

/-- Every remainder a matcher returns is a suffix of its input. -/
def SuffixClosed (m : Matcher) : Prop := ∀ s r, r ∈ m s → r <:+ s

/-- The matcher rejects every all-whitespace input outright. -/
def KillsOnSpace (m : Matcher) : Prop :=
  ∀ s : List Char, s.all isSpaceJS = true → m s = []

/-! ### Decimal rendering, structurally

`Nat.repr` is defined through the fueled `Nat.toDigitsCore`; this
fuel-free equivalent supports the induction needed to show that distinct
acceptance timestamps yield distinct room identifiers. -/

/-- Decimal digits of `n`, most significant first. -/
def natToDigits (n : Nat) : List Char :=
  if n < 10 then [Nat.digitChar n]
  else natToDigits (n / 10) ++ [Nat.digitChar (n % 10)]
termination_by n
decreasing_by exact Nat.div_lt_self (by omega) (by omega)

/-! ## Helper lemmas -/

/-! ### Decimal rendering is injective -/

theorem natToDigits_lt {n : Nat} (h : n < 10) : natToDigits n = [Nat.digitChar n] := by
  rw [natToDigits, if_pos h]

theorem natToDigits_ge {n : Nat} (h : ¬ n < 10) :
    natToDigits n = natToDigits (n / 10) ++ [Nat.digitChar (n % 10)] := by
  conv_lhs => rw [natToDigits]
  rw [if_neg h]

theorem natToDigits_ne_nil (n : Nat) : natToDigits n ≠ [] := by
  by_cases h : n < 10
  · rw [natToDigits_lt h]; simp
  · rw [natToDigits_ge h]; simp

theorem digitChar_inj_lt10 : ∀ a < 10, ∀ b < 10, Nat.digitChar a = Nat.digitChar b → a = b := by
  decide

theorem toDigitsCore_eq_natToDigits :
    ∀ (f n : Nat) (acc : List Char), n < f →
      Nat.toDigitsCore 10 f n acc = natToDigits n ++ acc := by
  intro f
  induction f with
  | zero => intro n acc h; omega
  | succ f ih =>
    intro n acc h
    show (if n / 10 = 0 then Nat.digitChar (n % 10) :: acc
          else Nat.toDigitsCore 10 f (n / 10) (Nat.digitChar (n % 10) :: acc)) = _
    by_cases h10 : n / 10 = 0
    · have hn : n < 10 := by omega
      have hmod : n % 10 = n := Nat.mod_eq_of_lt hn
      rw [if_pos h10, natToDigits_lt hn, hmod]
      simp
    · have hge : 10 ≤ n := by
        rcases Nat.lt_or_ge n 10 with hlt | hge
        · exact absurd (by omega : n / 10 = 0) h10
        · exact hge
      have hdiv : n / 10 < n := Nat.div_lt_self (by omega) (by omega)
      rw [if_neg h10, ih (n / 10) (Nat.digitChar (n % 10) :: acc) (by omega)]
      rw [natToDigits_ge (by omega : ¬ n < 10)]
      simp

theorem repr_eq_natToDigits (n : Nat) : Nat.repr n = (natToDigits n).asString := by
  show (Nat.toDigits 10 n).asString = _
  rw [Nat.toDigits, toDigitsCore_eq_natToDigits (n + 1) n [] (by omega)]
  simp

theorem natToDigits_inj : ∀ m n : Nat, natToDigits m = natToDigits n → m = n := by
  intro m
  induction m using Nat.strong_induction_on with
  | _ m ih =>
    intro n h
    by_cases hm : m < 10 <;> by_cases hn : n < 10
    · rw [natToDigits_lt hm, natToDigits_lt hn] at h
      exact digitChar_inj_lt10 m hm n hn (by simpa using h)
    · rw [natToDigits_lt hm, natToDigits_ge hn] at h
      have hlen := congrArg List.length h
      simp at hlen
      exact absurd hlen.symm (by simpa using natToDigits_ne_nil (n / 10))
    · rw [natToDigits_ge hm, natToDigits_lt hn] at h
      have hlen := congrArg List.length h
      simp at hlen
      exact absurd hlen (by simpa using natToDigits_ne_nil (m / 10))
    · rw [natToDigits_ge hm, natToDigits_ge hn] at h
      rw [← List.concat_eq_append, ← List.concat_eq_append, List.concat_inj] at h
      obtain ⟨hq, hr⟩ := h
      have hdiv : m / 10 < m := Nat.div_lt_self (by omega) (by omega)
      have hq' : m / 10 = n / 10 := ih (m / 10) hdiv (n / 10) hq
      have hr' : m % 10 = n % 10 :=
        digitChar_inj_lt10 (m % 10) (Nat.mod_lt m (by omega)) (n % 10) (Nat.mod_lt n (by omega)) hr
      omega

theorem toString_nat_inj {m n : Nat} (h : toString m = toString n) : m = n := by
  have h' : Nat.repr m = Nat.repr n := h
  rw [repr_eq_natToDigits, repr_eq_natToDigits] at h'
  have hd := congrArg String.data h'
  simp [List.asString] at hd
  exact natToDigits_inj m n hd

/-! ### Splitting a separated concatenation -/

theorem sep_split_inj : ∀ (a : List Char) {b : List Char} (c : List Char) {d : List Char},
    '_' ∉ a → '_' ∉ c → a ++ '_' :: b = c ++ '_' :: d → a = c ∧ b = d := by
  intro a
  induction a with
  | nil =>
    intro b c d _ hc h
    cases c with
    | nil => simpa using h
    | cons y ys =>
      simp at h
      exact absurd (by simp [h.1.symm] : '_' ∈ y :: ys) hc
  | cons x xs ih =>
    intro b c d ha hc h
    cases c with
    | nil =>
      simp at h
      exact absurd (by simp [h.1] : '_' ∈ x :: xs) ha
    | cons y ys =>
      simp at h
      obtain ⟨rfl, h2⟩ := h
      have := ih ys (by simp at ha; exact ha.2) (by simp at hc; exact hc.2) h2
      exact ⟨by rw [this.1], this.2⟩

/-- The synthesized room identifier is injective in its three
ingredients, provided the glued ids avoid the separator (Firebase uids
are alphanumeric). -/
theorem mkRoomId_inj {s₁ l₁ s₂ l₂ : String} {t₁ t₂ : Nat}
    (hs₁ : noUnderscore s₁) (hl₁ : noUnderscore l₁)
    (hs₂ : noUnderscore s₂) (hl₂ : noUnderscore l₂)
    (h : mkRoomId s₁ l₁ t₁ = mkRoomId s₂ l₂ t₂) :
    s₁ = s₂ ∧ l₁ = l₂ ∧ t₁ = t₂ := by
  have hd := congrArg String.data h
  simp only [mkRoomId, String.data_append] at hd
  have hd' : s₁.data ++ '_' :: (l₁.data ++ '_' :: (toString t₁).data)
      = s₂.data ++ '_' :: (l₂.data ++ '_' :: (toString t₂).data) := by
    simpa using hd
  obtain ⟨h1, h2⟩ := sep_split_inj s₁.data s₂.data hs₁ hs₂ hd'
  obtain ⟨h3, h4⟩ := sep_split_inj l₁.data l₂.data hl₁ hl₂ h2
  refine ⟨String.ext h1, String.ext h3, toString_nat_inj (String.ext h4)⟩

/-! ### Suffix-closure of the matcher combinators -/

theorem suffixClosed_mOne (p : Char → Bool) : SuffixClosed (mOne p) := by
  intro s r hr
  cases s with
  | nil => simp [mOne] at hr
  | cons c rest =>
    simp only [mOne] at hr
    split at hr
    · simp at hr
      exact hr ▸ List.suffix_cons c rest
    · simp at hr

theorem suffixClosed_mSeq {a b : Matcher}
    (ha : SuffixClosed a) (hb : SuffixClosed b) : SuffixClosed (mSeq a b) := by
  intro s r hr
  simp only [mSeq, List.mem_flatMap] at hr
  obtain ⟨mid, hmid, hr⟩ := hr
  exact (hb mid r hr).trans (ha s mid hmid)

theorem suffixClosed_mAlt {a b : Matcher}
    (ha : SuffixClosed a) (hb : SuffixClosed b) : SuffixClosed (mAlt a b) := by
  intro s r hr
  simp only [mAlt, List.mem_append] at hr
  rcases hr with hr | hr
  · exact ha s r hr
  · exact hb s r hr

theorem suffixClosed_mOpt {a : Matcher} (ha : SuffixClosed a) : SuffixClosed (mOpt a) := by
  intro s r hr
  simp only [mOpt, List.mem_cons] at hr
  rcases hr with rfl | hr
  · exact List.suffix_refl _
  · exact ha s r hr

theorem suffixClosed_mPlus (p : Char → Bool) : SuffixClosed (mPlus p) := by
  intro s
  induction s with
  | nil => intro r hr; simp [mPlus] at hr
  | cons c rest ih =>
    intro r hr
    simp only [mPlus] at hr
    split at hr
    · simp at hr
      rcases hr with rfl | hr
      · exact List.suffix_cons _ _
      · exact (ih r hr).trans (List.suffix_cons c rest)
    · simp at hr

theorem suffixClosed_mLit (lit : List Char) : SuffixClosed (mLit lit) := by
  induction lit with
  | nil =>
    intro s r hr
    simp [mLit] at hr
    exact hr ▸ List.suffix_refl s
  | cons c cs ih =>
    intro s r hr
    cases s with
    | nil => simp [mLit] at hr
    | cons d rest =>
      simp only [mLit] at hr
      split at hr
      · exact (ih rest r hr).trans (List.suffix_cons d rest)
      · simp at hr

theorem suffixClosed_mCountryCode : SuffixClosed mCountryCode := by
  unfold mCountryCode
  exact suffixClosed_mSeq (suffixClosed_mOpt (suffixClosed_mOne _))
    (suffixClosed_mSeq (suffixClosed_mOne _)
      (suffixClosed_mSeq
        (suffixClosed_mOpt (suffixClosed_mSeq (suffixClosed_mOne _)
          (suffixClosed_mOpt (suffixClosed_mOne _))))
        (suffixClosed_mOpt (suffixClosed_mOne _))))

/-! ### All-whitespace inputs never match the privacy pattern -/

theorem suffix_all {s r : List Char} (h : r <:+ s)
    (hs : s.all isSpaceJS = true) : r.all isSpaceJS = true := by
  obtain ⟨t, rfl⟩ := h
  simp only [List.all_append, Bool.and_eq_true] at hs
  exact hs.2

theorem killsOnSpace_mOne {p : Char → Bool}
    (hp : ∀ c, isSpaceJS c = true → p c = false) : KillsOnSpace (mOne p) := by
  intro s hs
  cases s with
  | nil => rfl
  | cons c rest =>
    simp only [List.all_cons, Bool.and_eq_true] at hs
    simp [mOne, hp c hs.1]

theorem killsOnSpace_mSeqLeft {a b : Matcher} (ha : KillsOnSpace a) :
    KillsOnSpace (mSeq a b) := by
  intro s hs
  simp [mSeq, ha s hs]

theorem killsOnSpace_mSeqRight {a b : Matcher}
    (ha : SuffixClosed a) (hb : KillsOnSpace b) : KillsOnSpace (mSeq a b) := by
  intro s hs
  simp only [mSeq, List.flatMap_eq_nil_iff]
  intro mid hmid
  exact hb mid (suffix_all (ha s mid hmid) hs)

theorem killsOnSpace_mAlt {a b : Matcher}
    (ha : KillsOnSpace a) (hb : KillsOnSpace b) : KillsOnSpace (mAlt a b) := by
  intro s hs
  simp [mAlt, ha s hs, hb s hs]

theorem killsOnSpace_mPlus {p : Char → Bool}
    (hp : ∀ c, isSpaceJS c = true → p c = false) : KillsOnSpace (mPlus p) := by
  intro s hs
  cases s with
  | nil => rfl
  | cons c rest =>
    simp only [List.all_cons, Bool.and_eq_true] at hs
    simp [mPlus, hp c hs.1]

theorem killsOnSpace_mLit {c0 : Char} {cs : List Char}
    (h : ∀ c, isSpaceJS c = true → (c.toLower == c0.toLower) = false) :
    KillsOnSpace (mLit (c0 :: cs)) := by
  intro s hs
  cases s with
  | nil => rfl
  | cons d rest =>
    simp only [List.all_cons, Bool.and_eq_true] at hs
    simp [mLit, h d hs.1]

theorem isSpaceJS_cases {c : Char} (h : isSpaceJS c = true) :
    c = ' ' ∨ c = '\t' ∨ c = '\n' ∨ c = '\r' ∨ c = '\x0B' ∨ c = '\x0C' := by
  simp only [isSpaceJS, Bool.or_eq_true, beq_iff_eq] at h
  tauto

theorem space_not_digit : ∀ c, isSpaceJS c = true → isDigitJS c = false := by
  intro c h
  rcases isSpaceJS_cases h with rfl | rfl | rfl | rfl | rfl | rfl <;> decide

theorem space_not_emailLocal : ∀ c, isSpaceJS c = true → isEmailLocal c = false := by
  intro c h
  rcases isSpaceJS_cases h with rfl | rfl | rfl | rfl | rfl | rfl <;> decide

theorem space_not_litHead {h0 : Char} (hh : isSpaceJS h0.toLower = false) :
    ∀ c, isSpaceJS c = true → (c.toLower == h0.toLower) = false := by
  intro c h
  rcases isSpaceJS_cases h with rfl | rfl | rfl | rfl | rfl | rfl <;>
    · by_contra hb
      simp only [Bool.not_eq_false, beq_iff_eq] at hb
      rw [← hb] at hh
      exact absurd hh (by decide)

theorem killsOnSpace_mPhone : KillsOnSpace mPhone := by
  unfold mPhone
  refine killsOnSpace_mSeqRight (suffixClosed_mOpt suffixClosed_mCountryCode) ?_
  refine killsOnSpace_mSeqRight (suffixClosed_mOpt (suffixClosed_mOne _)) ?_
  exact killsOnSpace_mSeqLeft
    (killsOnSpace_mSeqLeft (killsOnSpace_mOne space_not_digit))

theorem killsOnSpace_mEmail : KillsOnSpace mEmail := by
  unfold mEmail
  exact killsOnSpace_mSeqLeft (killsOnSpace_mPlus space_not_emailLocal)

theorem killsOnSpace_mLinks : KillsOnSpace mLinks := by
  unfold mLinks
  refine killsOnSpace_mAlt ?_ (killsOnSpace_mAlt ?_ (killsOnSpace_mAlt ?_ ?_))
  · exact killsOnSpace_mLit (space_not_litHead (by decide))
  · exact killsOnSpace_mLit (space_not_litHead (by decide))
  · exact killsOnSpace_mLit (space_not_litHead (by decide))
  · exact killsOnSpace_mLit (space_not_litHead (by decide))

theorem killsOnSpace_mPrivacy : KillsOnSpace mPrivacy := by
  unfold mPrivacy
  exact killsOnSpace_mAlt killsOnSpace_mPhone
    (killsOnSpace_mAlt killsOnSpace_mEmail killsOnSpace_mLinks)

theorem testAnywhere_allSpace {s : List Char} (hs : s.all isSpaceJS = true) :
    testAnywhere mPrivacy s = false := by
  induction s with
  | nil => simp [testAnywhere, killsOnSpace_mPrivacy [] (by simp)]
  | cons c rest ih =>
    simp only [List.all_cons, Bool.and_eq_true] at hs
    have hall : (c :: rest).all isSpaceJS = true := by simp [hs.1, hs.2]
    simp [testAnywhere, killsOnSpace_mPrivacy (c :: rest) hall, ih hs.2]

/-- A speak text matching the privacy pattern is not all-whitespace, so
it passes `handleSend`'s initial `!input.trim()` guard. -/
theorem privacy_trim {s : String} (h : privacyPatternTest s = true) :
    jsTruthyTrim s = true := by
  by_contra hb
  simp only [Bool.not_eq_true] at hb
  have hall : s.data.all isSpaceJS = true := by
    simp only [jsTruthyTrim, List.any_eq_false] at hb
    simp only [List.all_eq_true]
    intro c hc
    have := hb c hc
    simpa using this
  rw [privacyPatternTest, testAnywhere_allSpace hall] at h
  exact Bool.false_ne_true h

/-! ### A keyword hit is never all-whitespace either -/

theorem isPrefixList_any {p : Char → Bool} :
    ∀ (kw s : List Char), isPrefixList kw s = true → kw.any p = true → s.any p = true := by
  intro kw
  induction kw with
  | nil => intro s _ h; simp at h
  | cons a as ih =>
    intro s hpre hany
    cases s with
    | nil => simp [isPrefixList] at hpre
    | cons b bs =>
      simp only [isPrefixList, Bool.and_eq_true, beq_iff_eq] at hpre
      obtain ⟨rfl, hpre⟩ := hpre
      simp only [List.any_cons, Bool.or_eq_true] at hany ⊢
      rcases hany with hpa | hrest
      · exact Or.inl hpa
      · exact Or.inr (ih bs hpre hrest)

theorem isSubstr_any {p : Char → Bool} {kw : List Char} :
    ∀ s : List Char, isSubstr kw s = true → kw.any p = true → s.any p = true := by
  intro s
  induction s with
  | nil =>
    intro hsub hany
    cases kw with
    | nil => simp at hany
    | cons a as => simp [isSubstr, isPrefixList] at hsub
  | cons c rest ih =>
    intro hsub hany
    simp only [isSubstr, Bool.or_eq_true] at hsub
    rcases hsub with hpre | hrest
    · exact isPrefixList_any kw (c :: rest) hpre hany
    · simp only [List.any_cons, Bool.or_eq_true]
      exact Or.inr (ih hrest hany)

theorem space_toLower {c : Char} (h : isSpaceJS c = true) : c.toLower = c := by
  rcases isSpaceJS_cases h with rfl | rfl | rfl | rfl | rfl | rfl <;> decide

/-- A keyword scan hit on the lowercased text means the raw text has a
non-whitespace character, provided every keyword does. -/
theorem keyword_hit_trim {kws : List String} {s : String}
    (hkw : ∀ kw ∈ kws, kw.data.any (fun c => !(isSpaceJS c)) = true)
    (h : kws.any (fun kw => isSubstr kw.data (lowerData s)) = true) :
    jsTruthyTrim s = true := by
  simp only [List.any_eq_true] at h
  obtain ⟨kw, hmem, hsub⟩ := h
  have hlow : (lowerData s).any (fun c => !(isSpaceJS c)) = true :=
    isSubstr_any (lowerData s) hsub (hkw kw hmem)
  simp only [lowerData, List.any_map, List.any_eq_true, Function.comp] at hlow
  obtain ⟨c, hc, hcl⟩ := hlow
  simp only [jsTruthyTrim, List.any_eq_true]
  refine ⟨c, hc, ?_⟩
  simp only [Bool.not_eq_true'] at hcl ⊢
  by_contra hb
  simp only [Bool.not_eq_false] at hb
  rw [space_toLower hb] at hcl
  rw [hcl] at hb
  exact Bool.false_ne_true hb

theorem toxic_trim {s : String} (h : toxicTest s = true) : jsTruthyTrim s = true :=
  keyword_hit_trim (by decide) h

theorem risk_trim {s : String} (h : riskTest s = true) : jsTruthyTrim s = true :=
  keyword_hit_trim (by decide) h

/-! ### Small facts about the speak flow and the room log -/

/-- Whatever the rewrite service returned, the speak flow's response text
is nonempty (the canned acknowledgment backs every failure mode). -/
theorem aiResponseOf_ne_empty (fetched : Option String) : aiResponseOf fetched ≠ "" := by
  match fetched with
  | none => simp [aiResponseOf, cannedAck]
  | some t =>
    simp only [aiResponseOf]
    split
    · simp [cannedAck]
    · rename_i hemp
      intro hcontra
      rw [hcontra] at hemp
      exact absurd hemp (by decide)

/-- An allowed (nonempty, non-toxic) post appends exactly its message. -/
theorem postOnce_allowed {rid : String} {log : List ChatMessage} {p : PostInput}
    (h1 : jsTruthyTrim p.content = true) (h2 : toxicTest p.content = false) :
    postOnce rid log p = log ++ [toMsg p] := by
  simp [postOnce, sendChat, h1, h2, toMsg]

/-- A batch of allowed posts appends exactly its messages, in order. -/
theorem runPosts_allowed {rid : String} (posts : List PostInput)
    (hok : ∀ p ∈ posts, jsTruthyTrim p.content = true ∧ toxicTest p.content = false) :
    ∀ log : List ChatMessage, runPosts rid posts log = log ++ posts.map toMsg := by
  induction posts with
  | nil => intro log; simp [runPosts]
  | cons p ps ih =>
    intro log
    have hp := hok p (by simp)
    have hps : ∀ q ∈ ps, jsTruthyTrim q.content = true ∧ toxicTest q.content = false :=
      fun q hq => hok q (by simp [hq])
    show runPosts rid ps (postOnce rid log p) = _
    rw [ih hps, postOnce_allowed hp.1 hp.2]
    simp

/-- Either writer of the `requests` collection produces a well-shaped
record: `handleSend` writes `status = pending` with no room or listener,
`acceptRequest` writes `status = accepted` with both present. -/
theorem systemWrite_shape : ∀ r, SystemWrite r → ReqShapeOk r := by
  intro r hw
  rcases hw with ⟨u, resp, ts, rfl⟩ | ⟨req, dd, uid, rid, ts, rfl⟩
  · exact ⟨fun _ => rfl,
      fun hc => absurd (show ("pending" : String) = "accepted" from hc) (by decide)⟩
  · refine ⟨fun hp => absurd (show ("accepted" : String) = "pending" from hp) (by decide), ?_⟩
    intro _
    exact ⟨by simp [acceptedDoc], by simp [acceptedDoc]⟩

/-! ## The claims -/

/-- C1 (against the code): the spec requires the crisis verdict to
dominate the privacy verdict, but `handleSend` tests the privacy pattern
first and returns before the crisis scan runs.  On a text containing
both the crisis term `die` and an e-mail-shaped token, the verdict is
`blockPrivacy` — the crisis modal is never raised.  (Nothing is
persisted either way, but the life-safety escalation is silently
downgraded to a privacy warning.) -/
theorem c1_privacy_preempts_crisis :
    riskTest "i want to die a@b.co" = true ∧
    privacyPatternTest "i want to die a@b.co" = true ∧
    handleSendVerdict "i want to die a@b.co" = Verdict.blockPrivacy ∧
    Verdict.blockPrivacy ≠ Verdict.blockCrisis ∧
    (handleSend (some ⟨"u1", some "Nour"⟩) none 3 "d1"
        ⟨"i want to die a@b.co", [], "", false, false, []⟩).state.emergencyModal = false ∧
    (handleSend (some ⟨"u1", some "Nour"⟩) none 3 "d1"
        ⟨"i want to die a@b.co", [], "", false, false, []⟩).state.warning = privacyWarningText := by
  refine ⟨by decide, by decide, by decide, by decide, ?_, ?_⟩ <;> decide

/-- C3: a chat-room text containing a toxicity term is rejected: the
room log is untouched, `ban_expiry` is set to `Date.now() + 86400000`
(24 hours), the client reloads, and the suspension gate then blocks the
surface at any instant before the expiry. -/
theorem c3_toxic_send_suspends (u : AuthUser) (rid : String) (now serverTs : Nat)
    (st : ChatClientState) (log : List ChatMessage)
    (htox : toxicTest st.input = true) :
    (sendChat (some u) (some rid) now serverTs st log).2 = log ∧
    (sendChat (some u) (some rid) now serverTs st log).1.banExpiry =
      some (now + banDurationMs) ∧
    (sendChat (some u) (some rid) now serverTs st log).1.reloaded = true ∧
    banDurationMs = 24 * 60 * 60 * 1000 ∧
    (∀ t : Int, t < (now : Int) + (banDurationMs : Int) →
      renderApp (checkBanOnLoad (some ((now : Int) + (banDurationMs : Int))) t) =
        Surface.suspendedNotice) := by
  have ht := toxic_trim htox
  refine ⟨?_, ?_, ?_, by decide, ?_⟩
  · simp [sendChat, ht, htox]
  · simp [sendChat, ht, htox]
  · simp [sendChat, ht, htox]
  · intro t htl
    simp [checkBanOnLoad, renderApp, htl]

/-- Witness for C3 at a concrete toxic input. -/
theorem c3_witness :
    toxicTest "you idiot" = true ∧
    (sendChat (some ⟨"u2", none⟩) (some "room1") 10 11
        ⟨"you idiot", none, false⟩ []).1.banExpiry = some (10 + banDurationMs) :=
  ⟨by decide,
    (c3_toxic_send_suspends ⟨"u2", none⟩ "room1" 10 11
      ⟨"you idiot", none, false⟩ [] (by decide)).2.1⟩

/-- C4: a speak text matching the privacy pattern (and free of crisis
terms) is blocked as `blockPrivacy`: nothing reaches the `requests`
store, only the warning banner changes, its clearing timer is set to
5000 ms, and the conversation, matching flag, modal and input text are
untouched. -/
theorem c4_privacy_blocks_and_warns (user : Option AuthUser) (fetched : Option String)
    (serverTs : Nat) (newDocId : String) (st : SpeakState)
    (hp : privacyPatternTest st.input = true) (_hr : riskTest st.input = false) :
    (handleSend user fetched serverTs newDocId st).state.requests = st.requests ∧
    (handleSend user fetched serverTs newDocId st).state.warning = privacyWarningText ∧
    (handleSend user fetched serverTs newDocId st).warningClearDelayMs = some 5000 ∧
    (handleSend user fetched serverTs newDocId st).state.messages = st.messages ∧
    (handleSend user fetched serverTs newDocId st).state.matching = st.matching ∧
    (handleSend user fetched serverTs newDocId st).state.emergencyModal = st.emergencyModal ∧
    (handleSend user fetched serverTs newDocId st).state.input = st.input ∧
    handleSendVerdict st.input = Verdict.blockPrivacy := by
  have ht := privacy_trim hp
  simp [handleSend, handleSendVerdict, ht, hp]

/-- Witness for C4 at a concrete phone-number-bearing input. -/
theorem c4_witness :
    privacyPatternTest "call 555-123-4567" = true ∧
    riskTest "call 555-123-4567" = false ∧
    (handleSend none none 0 "d2"
        ⟨"call 555-123-4567", [], "", false, false, []⟩).warningClearDelayMs = some 5000 :=
  ⟨by decide, by decide,
    (c4_privacy_blocks_and_warns none none 0 "d2"
      ⟨"call 555-123-4567", [], "", false, false, []⟩ (by decide) (by decide)).2.2.1⟩

/-- C7: on load, a stored suspension expiry in the past does not block
(and the stored key is removed); one in the future blocks the whole
surface and shows the remaining time as whole days and hours rounded
down — in particular `now + 26h` is rendered `1d 2h`. -/
theorem c7_suspension_gate (expiry now : Int) :
    (expiry < now →
      checkBanOnLoad (some expiry) now = ⟨false, "", none⟩ ∧
      renderApp (checkBanOnLoad (some expiry) now) = Surface.normalApp) ∧
    (now < expiry →
      (checkBanOnLoad (some expiry) now).isBanned = true ∧
      (checkBanOnLoad (some expiry) now).storedAfter = some expiry ∧
      renderApp (checkBanOnLoad (some expiry) now) = Surface.suspendedNotice ∧
      (checkBanOnLoad (some expiry) now).banTimeRemaining =
        toString ((expiry - now) / 86400000) ++ "d " ++
          toString ((expiry - now) / 3600000 % 24) ++ "h") ∧
    ((checkBanOnLoad (some (now + 93600000)) now).isBanned = true ∧
      (checkBanOnLoad (some (now + 93600000)) now).banTimeRemaining = "1d 2h") := by
  refine ⟨?_, ?_, ?_⟩
  · intro h
    constructor
    · simp [checkBanOnLoad, show ¬ now < expiry by omega]
    · simp [checkBanOnLoad, renderApp, show ¬ now < expiry by omega]
  · intro h
    refine ⟨?_, ?_, ?_, ?_⟩ <;> simp [checkBanOnLoad, renderApp, h]
  · have hc : (0 : Int) < now + 93600000 - now := by omega
    have h26 : now + 93600000 - now = (93600000 : Int) := by ring
    constructor
    · simp [checkBanOnLoad, show now < now + (93600000 : Int) by omega]
    · simp only [checkBanOnLoad]
      rw [if_pos hc, h26]
      show toString ((93600000 : Int) / 86400000) ++ "d " ++
          toString ((93600000 : Int) / 3600000 % 24) ++ "h" = "1d 2h"
      decide

/-- Witness for C7 at concrete instants. -/
theorem c7_witness :
    checkBanOnLoad (some 5) 10 = ⟨false, "", none⟩ ∧
    (checkBanOnLoad (some 10) 5).isBanned = true ∧
    (checkBanOnLoad (some (0 + 93600000)) 0).banTimeRemaining = "1d 2h" :=
  ⟨((c7_suspension_gate 5 10).1 (by decide)).1,
    ((c7_suspension_gate 10 5).2.1 (by decide)).1,
    ((c7_suspension_gate 93600000 0).2.2).2⟩

/-- C10 (implicit frame effect): with no signed-in user, an allowed
speak text writes nothing to the `requests` ledger, yet the conversation
still gains the user turn and an AI acknowledgment, and the client still
enters the matching (searching) state. -/
theorem c10_guest_speak_writes_nothing (fetched : Option String) (serverTs : Nat)
    (newDocId : String) (st : SpeakState)
    (hv : handleSendVerdict st.input = Verdict.allow) :
    (handleSend none fetched serverTs newDocId st).state.requests = st.requests ∧
    (handleSend none fetched serverTs newDocId st).state.matching = true ∧
    (handleSend none fetched serverTs newDocId st).state.messages =
      st.messages ++ [⟨"user", st.input⟩, ⟨"assistant", aiResponseOf fetched⟩] := by
  unfold handleSendVerdict at hv
  split_ifs at hv with h1 h2 h3
  simp only [Bool.not_eq_true] at h1 h2 h3
  simp [handleSend, h1, h2, h3]

/-- Witness for C10 on an allowed text. -/
theorem c10_witness :
    handleSendVerdict "I feel so heavy today" = Verdict.allow ∧
    (handleSend none none 7 "d3"
        ⟨"I feel so heavy today", [], "", false, false, []⟩).state.requests = [] ∧
    (handleSend none none 7 "d3"
        ⟨"I feel so heavy today", [], "", false, false, []⟩).state.matching = true :=
  ⟨by decide,
    (c10_guest_speak_writes_nothing none 7 "d3"
      ⟨"I feel so heavy today", [], "", false, false, []⟩ (by decide)).1,
    (c10_guest_speak_writes_nothing none 7 "d3"
      ⟨"I feel so heavy today", [], "", false, false, []⟩ (by decide)).2.1⟩

/-- C2 (against the code): `acceptRequest` performs read → create room →
delete pending → insert accepted with no conditional guard, so under the
interleaving in `raceSchedule` both concurrent accepts finish all their
writes: the final ledger holds two `accepted` records for the same
original request `r1`, referencing two different rooms, and both rooms
exist — no "already matched" error path exists in the handler at all. -/
theorem c2_double_accept_race :
    raceFinal.requests.map
        (fun p => (p.1, p.2.status, p.2.origId, p.2.roomId, p.2.listenerId)) =
      [("a2", "accepted", some "r1", some "s_L2_200", some "L2"),
       ("a1", "accepted", some "r1", some "s_L1_100", some "L1")] ∧
    raceFinal.rooms.map Prod.fst = ["s_L1_100", "s_L2_200"] ∧
    ("s_L1_100" : String) ≠ "s_L2_200" ∧
    raceSchedule.length = raceOpsL1.length + raceOpsL2.length := by decide

/-- C5: a (sequential) acceptance synthesizes the room id by gluing
speakerId, listenerId and the acceptance instant (injectively, for
separator-free ids), creates the room holding exactly the synthetic
system greeting whose sender is the pseudo-user `system`, removes the
original pending record, and inserts a record carrying
`status = accepted`, the `roomId` and the `listenerId`. -/
theorem c5_accept_steps (u : AuthUser) (d : String) (req : RequestDoc)
    (nowC serverTs : Nat) (nd : String) (st : Store)
    (_hpend : req.status = "pending")
    (hfresh : ∀ p ∈ st.rooms, p.1 ≠ mkRoomId req.speakerId u.uid nowC) :
    mkRoomId req.speakerId u.uid nowC
        = req.speakerId ++ "_" ++ u.uid ++ "_" ++ toString nowC ∧
    (∀ s₁ l₁ s₂ l₂ : String, ∀ t₁ t₂ : Nat,
      noUnderscore s₁ → noUnderscore l₁ → noUnderscore s₂ → noUnderscore l₂ →
      (s₁, l₁, t₁) ≠ (s₂, l₂, t₂) → mkRoomId s₁ l₁ t₁ ≠ mkRoomId s₂ l₂ t₂) ∧
    (mkRoomId req.speakerId u.uid nowC, [systemGreeting serverTs]) ∈
        (acceptRequest (some u) (d, req) nowC serverTs nd st).rooms ∧
    (systemGreeting serverTs).senderId = "system" ∧
    (acceptRequest (some u) (d, req) nowC serverTs nd st).requests =
        st.requests.filter (fun p => !(p.1 == d)) ++
          [(nd, acceptedDoc req d u.uid (mkRoomId req.speakerId u.uid nowC) serverTs)] ∧
    (acceptedDoc req d u.uid (mkRoomId req.speakerId u.uid nowC) serverTs).status
        = "accepted" ∧
    (acceptedDoc req d u.uid (mkRoomId req.speakerId u.uid nowC) serverTs).roomId
        = some (mkRoomId req.speakerId u.uid nowC) ∧
    (acceptedDoc req d u.uid (mkRoomId req.speakerId u.uid nowC) serverTs).listenerId
        = some u.uid := by
  have hany : st.rooms.any (fun p => p.1 == mkRoomId req.speakerId u.uid nowC) = false := by
    rw [List.any_eq_false]
    intro p hp
    simpa using hfresh p hp
  refine ⟨rfl, ?_, ?_, rfl, ?_, rfl, rfl, rfl⟩
  · intro s₁ l₁ s₂ l₂ t₁ t₂ h₁ h₂ h₃ h₄ hne heq
    obtain ⟨e1, e2, e3⟩ := mkRoomId_inj h₁ h₂ h₃ h₄ heq
    exact hne (by rw [e1, e2, e3])
  · simp only [acceptRequest, acceptOps, List.foldl, applyOp, addRoomMsgFn, hany]
    simp
  · simp only [acceptRequest, acceptOps, List.foldl, applyOp]

/-- Witness for C5: accepting the concrete pending request of the race
scenario, sequentially. -/
theorem c5_witness :
    (mkRoomId "s" "L" 4, [systemGreeting 9]) ∈
      (acceptRequest (some ⟨"L", none⟩) ("r1", racePending) 4 9 "n1" raceStart).rooms ∧
    (acceptRequest (some ⟨"L", none⟩) ("r1", racePending) 4 9 "n1" raceStart).requests =
      raceStart.requests.filter (fun p => !(p.1 == "r1")) ++
        [("n1", acceptedDoc racePending "r1" "L" (mkRoomId "s" "L" 4) 9)] := by
  have h := c5_accept_steps ⟨"L", none⟩ "r1" racePending 4 9 "n1" raceStart (by decide)
    (by intro p hp; simp [raceStart] at hp)
  exact ⟨h.2.2.1, h.2.2.2.2.1⟩

/-- C6 (amended): every request record either writer produces is
well-shaped (pending ⇒ no `roomId`; accepted ⇒ `roomId` and
`listenerId` present); the invariant is preserved along any trace of
system writes; and a single acceptance removes the pending document.
("Exactly one acceptance" fails under interleaving — see the
counterexample.) -/
theorem c6_ledger_shape_invariant :
    (∀ r, SystemWrite r → ReqShapeOk r) ∧
    (∀ (trace : List StoreOp) (st : Store), (∀ op ∈ trace, opWritesOk op) →
      (∀ p ∈ st.requests, ReqShapeOk p.2) →
      ∀ p ∈ (trace.foldl applyOp st).requests, ReqShapeOk p.2) ∧
    (∀ (u : AuthUser) (d : String) (req : RequestDoc) (nowC serverTs : Nat)
        (nd : String) (st : Store), nd ≠ d →
      ∀ p ∈ (acceptRequest (some u) (d, req) nowC serverTs nd st).requests,
        p.1 ≠ d) := by
  refine ⟨systemWrite_shape, ?_, ?_⟩
  · intro trace
    induction trace with
    | nil => intro st _ hst p hp; exact hst p hp
    | cons op rest ih =>
      intro st hops hst p hp
      refine ih (applyOp st op) (fun o ho => hops o (by simp [ho])) ?_ p hp
      intro q hq
      cases op with
      | addRoomMsg rid m => exact hst q hq
      | deleteRequest dd =>
        simp only [applyOp, List.mem_filter] at hq
        exact hst q hq.1
      | addRequest dd r =>
        simp only [applyOp, List.mem_append, List.mem_singleton] at hq
        rcases hq with h | h
        · exact hst q h
        · have hw : SystemWrite r := hops (.addRequest dd r) (by simp)
          rw [h]
          exact systemWrite_shape r hw
  · intro u d req nowC serverTs nd st hnd p hp
    simp only [acceptRequest, acceptOps, List.foldl, applyOp, List.mem_append,
      List.mem_filter, List.mem_singleton] at hp
    rcases hp with ⟨_, hfil⟩ | h
    · simpa using hfil
    · rw [h]
      exact hnd

/-- Counterexample for C6 as frozen: in the interleaved double-accept
execution, the single pending request `r1` is transitioned by two
different acceptances (listeners `L2` and `L1`), not exactly one. -/
theorem c6_race_pending_matched_twice :
    (raceFinal.requests.filter
        (fun p => p.2.origId == some "r1" && p.2.status == "accepted")).map
      (fun p => p.2.listenerId) = [some "L2", some "L1"] ∧
    ¬ ((raceFinal.requests.filter (fun p => p.2.origId == some "r1")).length = 1) := by
  decide

/-- Witness for C6 applied at concrete writes and a concrete acceptance. -/
theorem c6_witness :
    ReqShapeOk (mkPendingDoc ⟨"u", none⟩ "resp" 5) ∧
    ReqShapeOk (acceptedDoc racePending "r1" "L9" "s_L9_7" 7) ∧
    ("n0", acceptedDoc racePending "r1" "L0" (mkRoomId "s" "L0" 3) 4).1 ≠ "r1" := by
  refine ⟨?_, ?_, ?_⟩
  · exact c6_ledger_shape_invariant.1 _ (Or.inl ⟨⟨"u", none⟩, "resp", 5, rfl⟩)
  · exact c6_ledger_shape_invariant.1 _ (Or.inr ⟨racePending, "r1", "L9", "s_L9_7", 7, rfl⟩)
  · exact c6_ledger_shape_invariant.2.2 ⟨"L0", none⟩ "r1" racePending 3 4 "n0" raceStart
      (by decide) _ (by decide)

/-- C9 (amended): the five-second timer bounds the awaited `fetch` — if
the fetch has not settled by 5000 ms it is aborted and the call resolves
to null, and an outright network failure also resolves to null within
the bound; a null result makes the caller fall back to the canned
acknowledgment, and the speak flow's response text is never empty.  (The
timer is cleared once headers arrive, so the body read afterwards is
unbounded — see the counterexample.) -/
theorem c9_fetch_bounded_and_silent (key : Option String) (outcome : FetchOutcome) :
    (fetchGemini key outcome).fetchSettledAtMs ≤ GEMINI_TIMEOUT_MS ∧
    (∀ h b txt, outcome = FetchOutcome.ok h b txt → GEMINI_TIMEOUT_MS ≤ h →
      (fetchGemini key outcome).result = none ∧
      (fetchGemini key outcome).completedAtMs ≤ GEMINI_TIMEOUT_MS) ∧
    (∀ t, outcome = FetchOutcome.netFail t →
      (fetchGemini key outcome).result = none ∧
      (fetchGemini key outcome).completedAtMs ≤ GEMINI_TIMEOUT_MS) ∧
    ((fetchGemini key outcome).result = none →
      aiResponseOf (fetchGemini key outcome).result = cannedAck) ∧
    aiResponseOf (fetchGemini key outcome).result ≠ "" := by
  refine ⟨?_, ?_, ?_, fun hnone => by rw [hnone]; rfl, aiResponseOf_ne_empty _⟩
  · by_cases hk : geminiKeyOk key = true
    · simp only [fetchGemini, hk, Bool.not_true, Bool.false_eq_true, if_false]
      cases outcome with
      | netFail t =>
        by_cases ht : t < GEMINI_TIMEOUT_MS
        · simp only [if_pos ht]; omega
        · simp only [if_neg ht]; omega
      | ok h b txt =>
        by_cases hh : h < GEMINI_TIMEOUT_MS
        · simp only [if_pos hh]; omega
        · simp only [if_neg hh]; omega
    · simp only [Bool.not_eq_true] at hk
      simp [fetchGemini, hk]
  · intro h b txt hout hge
    subst hout
    by_cases hk : geminiKeyOk key = true
    · simp only [fetchGemini, hk, Bool.not_true, Bool.false_eq_true, if_false]
      have hh : ¬ h < GEMINI_TIMEOUT_MS := by omega
      simp only [if_neg hh]
      exact ⟨by simp, by simp [GEMINI_TIMEOUT_MS]⟩
    · simp only [Bool.not_eq_true] at hk
      simp [fetchGemini, hk]
  · intro t hout
    subst hout
    by_cases hk : geminiKeyOk key = true
    · simp only [fetchGemini, hk, Bool.not_true, Bool.false_eq_true, if_false]
      by_cases ht : t < GEMINI_TIMEOUT_MS
      · simp only [if_pos ht]
        exact ⟨by simp, by omega⟩
      · simp only [if_neg ht]
        exact ⟨by simp, by simp [GEMINI_TIMEOUT_MS]⟩
    · simp only [Bool.not_eq_true] at hk
      simp [fetchGemini, hk]

/-- Counterexample for C9 as frozen: with a valid key, headers arriving
at 1 ms and a body that takes 10000 ms, the call completes at 10001 ms —
the whole call is not bounded by the 5000 ms timer, because
`clearTimeout` runs before `response.json()` is awaited. -/
theorem c9_body_read_unbounded :
    geminiKeyOk (some "AIzaSyDUMMYKEY9876543210") = true ∧
    ¬ ((fetchGemini (some "AIzaSyDUMMYKEY9876543210")
          (FetchOutcome.ok 1 10000 (some "ok"))).completedAtMs ≤ GEMINI_TIMEOUT_MS) := by
  decide

/-- Witness for C9: a network failure at 9999 ms is aborted at the
timer, resolving to null at 5000 ms. -/
theorem c9_witness :
    (fetchGemini (some "AIzaSyDUMMYKEY9876543210") (FetchOutcome.netFail 9999)).result
        = none ∧
    (fetchGemini (some "AIzaSyDUMMYKEY9876543210")
        (FetchOutcome.netFail 9999)).completedAtMs ≤ GEMINI_TIMEOUT_MS :=
  (c9_fetch_bounded_and_silent (some "AIzaSyDUMMYKEY9876543210")
    (FetchOutcome.netFail 9999)).2.2.1 9999 rfl

/-- C8: posting N allowed messages (strictly increasing server
timestamps) into a room on top of an older sorted log and reading the
room back through `watch` yields the old log followed by exactly those N
messages, in order: nothing lost, nothing duplicated, ascending by
timestamp — and every snapshot the watch delivers is ascending.  With an
empty initial log the read-back is exactly the N posted messages. -/
theorem c8_roundtrip (rid : String) (posts : List PostInput) (log₀ : List ChatMessage)
    (hok : ∀ p ∈ posts, jsTruthyTrim p.content = true ∧ toxicTest p.content = false)
    (hts : List.Pairwise (fun p q : PostInput => p.ts < q.ts) posts)
    (hlog : List.Sorted tsLE log₀)
    (hcross : ∀ m ∈ log₀, ∀ p ∈ posts, m.timestamp < p.ts) :
    watchSnapshot (runPosts rid posts log₀) = log₀ ++ posts.map toMsg ∧
    (watchSnapshot (runPosts rid posts log₀)).drop log₀.length = posts.map toMsg ∧
    (posts.map toMsg).length = posts.length ∧
    (posts.map toMsg).Nodup ∧
    List.Sorted tsLE (watchSnapshot (runPosts rid posts log₀)) ∧
    (∀ anyLog : List ChatMessage, List.Sorted tsLE (watchSnapshot anyLog)) := by
  have hrun : runPosts rid posts log₀ = log₀ ++ posts.map toMsg :=
    runPosts_allowed posts hok log₀
  have hsortedPosts : List.Sorted tsLE (posts.map toMsg) := by
    refine List.pairwise_map.mpr (hts.imp ?_)
    intro p q h
    exact Nat.le_of_lt h
  have hsorted : List.Sorted tsLE (log₀ ++ posts.map toMsg) := by
    refine List.pairwise_append.mpr ⟨hlog, hsortedPosts, ?_⟩
    intro a ha b hb
    obtain ⟨p, hp, rfl⟩ := List.mem_map.mp hb
    exact Nat.le_of_lt (hcross a ha p hp)
  have heq : watchSnapshot (runPosts rid posts log₀) = log₀ ++ posts.map toMsg := by
    rw [watchSnapshot, hrun]
    exact List.Sorted.insertionSort_eq hsorted
  refine ⟨heq, ?_, by simp, ?_, ?_, ?_⟩
  · rw [heq, List.drop_left]
  · refine List.pairwise_map.mpr (hts.imp ?_)
    intro p q h heqm
    have hts' : p.ts = q.ts := congrArg ChatMessage.timestamp heqm
    omega
  · rw [heq]
    exact hsorted
  · intro anyLog
    exact List.sorted_insertionSort tsLE anyLog

/-- Witness for C8: two allowed posts into a fresh room read back
exactly, in order. -/
theorem c8_witness :
    watchSnapshot (runPosts "room"
        [⟨⟨"u1", some "A"⟩, "hello", 1⟩, ⟨⟨"u2", none⟩, "world", 2⟩] []) =
      [⟨"u1", "A", "hello", 1⟩, ⟨"u2", "Me", "world", 2⟩] := by
  have h := c8_roundtrip "room"
    [⟨⟨"u1", some "A"⟩, "hello", 1⟩, ⟨⟨"u2", none⟩, "world", 2⟩] []
    (by decide) (by decide) (by decide) (by decide)
  rw [h.1]
  decide

end Aether
